import Mathlib

/-!
Verification of the interval SQL/JSON binding crate.

The repository wraps a three-field interval value (months, days, microseconds)
and gives it four codecs: a binary wire codec (FromSql / ToSql), a text
formatter (Display), a structured codec (Serialize / Deserialize via a map
visitor) and a text parser (delegated to an external crate).  This file embeds
those operations over mathematical integers and byte lists and proves the
specified properties about them.  Machine integers i32 / i64 are modelled as
Int together with explicit two's-complement reduction modulo 2^32 / 2^64 at
the byte boundary.
-/

namespace PgIntervalBinding

/-- The interval value: fields `months` and `days` are the crate's i32 fields,
`microseconds` its i64 field (src/src/lib.rs, struct `pg_interval::Interval`
as used by the wrapper `Interval`). -/
structure PgInterval where
  months : Int
  days : Int
  microseconds : Int
deriving DecidableEq, Repr

/-- Big-endian base-256 digits of `n`, `w` bytes wide (most significant
first), as produced by Rust's `to_be_bytes` on the unsigned reduction. -/
def natToBeBytes : Nat → Nat → List Nat
  | 0, _ => []
  | w + 1, n => natToBeBytes w (n / 256) ++ [n % 256]

/-- Read a big-endian byte list back as a natural number, as Rust's
`from_be_bytes` does on the unsigned view. -/
def beBytesToNat (bs : List Nat) : Nat :=
  bs.foldl (fun acc b => acc * 256 + b) 0

/-- `i32::to_be_bytes`: two's-complement reduction modulo 2^32, then four
big-endian bytes. -/
def i32_to_be_bytes (x : Int) : List Nat :=
  natToBeBytes 4 (x % 4294967296).toNat

/-- `i32::from_be_bytes`: four big-endian bytes read as an unsigned value and
reinterpreted in two's complement. -/
def i32_from_be_bytes (bs : List Nat) : Int :=
  if beBytesToNat bs < 2147483648 then (beBytesToNat bs : Int)
  else (beBytesToNat bs : Int) - 4294967296

/-- `i64::to_be_bytes`: two's-complement reduction modulo 2^64, then eight
big-endian bytes. -/
def i64_to_be_bytes (x : Int) : List Nat :=
  natToBeBytes 8 (x % 18446744073709551616).toNat

/-- `i64::from_be_bytes`: eight big-endian bytes read as an unsigned value and
reinterpreted in two's complement. -/
def i64_from_be_bytes (bs : List Nat) : Int :=
  if beBytesToNat bs < 9223372036854775808 then (beBytesToNat bs : Int)
  else (beBytesToNat bs : Int) - 18446744073709551616

/-- Rust slice indexing `raw[a..b]` (contents only; the in-bounds check is
made explicit at each use site). -/
def slice (raw : List Nat) (a b : Nat) : List Nat :=
  (raw.drop a).take (b - a)

/-- Result of `FromSql::from_sql`: the source body always returns `Ok`, so the
only failure mode is the out-of-bounds panic raised by `raw[a..b]` when the
input is shorter than 16 bytes. -/
inductive SqlDecodeResult where
  | ok : PgInterval → SqlDecodeResult
  | panicked : SqlDecodeResult
deriving DecidableEq, Repr

/-- `FromSql::from_sql` (src/src/lib.rs lines 125-133): months from bytes
12..16, days from bytes 8..12, microseconds from bytes 0..8, each slice
converted with `from_be_bytes`; slicing panics when fewer than 16 bytes are
supplied. -/
def interval_from_sql (raw : List Nat) : SqlDecodeResult :=
  if 16 ≤ raw.length then
    .ok { months := i32_from_be_bytes (slice raw 12 16)
          , days := i32_from_be_bytes (slice raw 8 12)
          , microseconds := i64_from_be_bytes (slice raw 0 8) }
  else .panicked

/-- The 16 bytes appended by `ToSql::to_sql`: microseconds, then days, then
months, each big-endian (src/src/lib.rs lines 140-142). -/
def interval_encode (i : PgInterval) : List Nat :=
  i64_to_be_bytes i.microseconds ++ i32_to_be_bytes i.days ++ i32_to_be_bytes i.months

/-- The `IsNull` marker returned by `to_sql`. -/
inductive IsNull where
  | yes : IsNull
  | no : IsNull
deriving DecidableEq, Repr

/-- `ToSql::to_sql` (src/src/lib.rs lines 139-144): extends the output buffer
`w` with the 16-byte encoding and returns `IsNull::No`; it has no failure
path. -/
def interval_to_sql (i : PgInterval) (w : List Nat) : List Nat × IsNull :=
  (w ++ interval_encode i, .no)

/-- Rust's `buf[a..b].copy_from_slice(src)`: `none` models the panic, raised
when the range `a..b` is out of bounds for `buf` or `src` has a different
length than the range. -/
def copy_from_slice (buf : List Nat) (a b : Nat) (src : List Nat) :
    Option (List Nat) :=
  if a ≤ b ∧ b ≤ buf.length ∧ src.length = b - a then
    some (buf.take a ++ src ++ buf.drop b)
  else none

/-- `Interval::bytes` (src/src/lib.rs lines 64-70): `vec![0u8, 16]` is the
two-element vector `[0, 16]`, into which the three fields are then copied at
ranges 0..8, 8..12 and 12..16. -/
def interval_bytes (i : PgInterval) : Option (List Nat) := do
  let buf : List Nat := [0, 16]
  let buf ← copy_from_slice buf 0 8 (i64_to_be_bytes i.microseconds)
  let buf ← copy_from_slice buf 8 12 (i32_to_be_bytes i.days)
  let buf ← copy_from_slice buf 12 16 (i32_to_be_bytes i.months)
  pure buf

/-- The local string `buf` built by `Display for Interval`
(src/src/lib.rs lines 82-115): unit values are computed with Rust's
truncating `/` and `%` (`Int.tdiv` / `Int.tmod`), and each unit is appended
as `"<value> <name> "` only when its value is strictly positive. -/
def display_parts (i : PgInterval) : String :=
  (if i.months.tdiv 12 > 0 then toString (i.months.tdiv 12) ++ " years " else "") ++
  (if i.months.tmod 12 > 0 then toString (i.months.tmod 12) ++ " mons " else "") ++
  (if i.days > 0 then toString i.days ++ " days " else "") ++
  (if i.microseconds.tdiv 3600000000 > 0 then
    toString (i.microseconds.tdiv 3600000000) ++ " hours " else "") ++
  (if (i.microseconds.tmod 3600000000).tdiv 60000000 > 0 then
    toString ((i.microseconds.tmod 3600000000).tdiv 60000000) ++ " minutes " else "") ++
  (if (i.microseconds.tmod 60000000).tdiv 1000000 > 0 then
    toString ((i.microseconds.tmod 60000000).tdiv 1000000) ++ " seconds " else "") ++
  (if (i.microseconds.tmod 1000000).tdiv 1000 > 0 then
    toString ((i.microseconds.tmod 1000000).tdiv 1000) ++ " milliseconds " else "") ++
  (if i.microseconds.tmod 1000 > 0 then
    toString (i.microseconds.tmod 1000) ++ " microseconds " else "")

/-- `&buf.as_str()[..buf.len() - 1]`: the source drops the final byte; every
character the formatter writes is ASCII, so this is dropping the final
character. -/
def stripLastChar (s : String) : String := String.mk s.data.dropLast

/-- What `Display for Interval` actually sends to the formatter `f`
(src/src/lib.rs lines 116-120).  In the all-components-zero branch the source
executes `write!(buf, "0 seconds")`, which appends to the local `buf` and not
to `f`, so `f` receives nothing and the displayed string is empty. -/
def interval_display (i : PgInterval) : String :=
  if display_parts i = "" then "" else stripLastChar (display_parts i)

/-- The unit values of the formatter, paired with the spec's unit names, in
the spec's fixed order. -/
def unit_vals (i : PgInterval) : List (Int × String) :=
  [(i.months.tdiv 12, "years"),
   (i.months.tmod 12, "mons"),
   (i.days, "days"),
   (i.microseconds.tdiv 3600000000, "hours"),
   ((i.microseconds.tmod 3600000000).tdiv 60000000, "minutes"),
   ((i.microseconds.tmod 60000000).tdiv 1000000, "seconds"),
   ((i.microseconds.tmod 1000000).tdiv 1000, "milliseconds"),
   (i.microseconds.tmod 1000, "microseconds")]

/-- One emitted unit, rendered as `"<value> <unitname>"`. -/
def chunk (p : Int × String) : String := toString p.1 ++ " " ++ p.2

/-- Generic form of the buffer: every positive unit contributes its chunk
followed by a space. -/
def partsStr (l : List (Int × String)) : String :=
  l.foldr (fun p acc => (if 0 < p.1 then chunk p ++ " " else "") ++ acc) ""

/-- Join a list of strings with single spaces. -/
def joinSp : List String → String
  | [] => ""
  | [x] => x
  | x :: y :: t => x ++ " " ++ joinSp (y :: t)

/-- Spec-side formatter (amended claim): emit exactly the units with strictly
positive computed value, in order, joined by single spaces. -/
def spec_display (i : PgInterval) : String :=
  joinSp (((unit_vals i).filter (fun p => decide (0 < p.1))).map chunk)

/-- Spec-side formatter following the claim as stated: emit exactly the units
with nonzero computed value. -/
def spec_display_nonzero (i : PgInterval) : String :=
  joinSp (((unit_vals i).filter (fun p => decide (p.1 ≠ 0))).map chunk)

/-- Error classifications raised by `IntervalVisitor::visit_map`
(src/src/lib.rs lines 177-222). -/
inductive DeError where
  | duplicateField : String → DeError
  | unknownField : String → DeError
  | missingField : String → DeError
deriving DecidableEq, Repr

/-- The loop of `IntervalVisitor::visit_map`: three optional slots are filled
from the remaining key/value entries; a key whose slot is already filled is a
duplicate-field error, a key outside m / d / us is an unknown-field error, and
after the record is consumed each still-empty slot (checked in the order m,
d, us) is a missing-field error. -/
def visitStep : List (String × Int) → Option Int → Option Int → Option Int →
    Except DeError PgInterval
  | [], om, od, ou =>
    match om with
    | none => .error (.missingField "m")
    | some mv =>
      match od with
      | none => .error (.missingField "d")
      | some dv =>
        match ou with
        | none => .error (.missingField "us")
        | some uv => .ok ⟨mv, dv, uv⟩
  | (k, v) :: rest, om, od, ou =>
    if k = "m" then
      match om with
      | some _ => .error (.duplicateField "m")
      | none => visitStep rest (some v) od ou
    else if k = "d" then
      match od with
      | some _ => .error (.duplicateField "d")
      | none => visitStep rest om (some v) ou
    else if k = "us" then
      match ou with
      | some _ => .error (.duplicateField "us")
      | none => visitStep rest om od (some v)
    else .error (.unknownField k)

/-- `Deserialize for Interval`: the deserializer drives `IntervalVisitor over
the record's key/value entries with all three slots empty. -/
def interval_visit_map (r : List (String × Int)) : Except DeError PgInterval :=
  visitStep r none none none

/-- `Serialize for Interval` (src/src/lib.rs lines 151-160): the fields are
emitted in the order `m`, `d`, `us`. -/
def serialize_interval (i : PgInterval) : List (String × Int) :=
  [("m", i.months), ("d", i.days), ("us", i.microseconds)]

/-- Modelled from the spec: the structured-serialization framework collaborator
(the generic JSON rendering of a named-field record, serde_json in the
original) is not part of this repository; per the spec it renders the
fields in emitted order as a JSON object. -/
def jsonFields : List (String × Int) → String
  | [] => ""
  | [p] => "\"" ++ p.1 ++ "\":" ++ toString p.2
  | p :: q :: t => "\"" ++ p.1 ++ "\":" ++ toString p.2 ++ "," ++ jsonFields (q :: t)

/-- Modelled from the spec: JSON object rendering of a field list. -/
def jsonOfFields (l : List (String × Int)) : String :=
  "\x7b" ++ jsonFields l ++ "\x7d"

/-- 1 when the slot is filled, 0 when empty. -/
def optCnt (o : Option Int) : Nat := if o.isSome then 1 else 0

/-- How often field `f` has already been seen in the visitor state. -/
def seenCnt (f : String) (om od ou : Option Int) : Nat :=
  if f = "m" then optCnt om
  else if f = "d" then optCnt od
  else if f = "us" then optCnt ou
  else 0

/-- The value a slot ends with after a clean run: the value already in the
slot, or else the first entry of the record carrying that field name. -/
def slotVal (f : String) (o : Option Int) (r : List (String × Int)) : Option Int :=
  match o with
  | some v => some v
  | none => (r.find? (fun p => p.1 == f)).map Prod.snd

/-- The finalization of `visit_map` after the record is consumed: each empty
slot is a missing-field error, checked in the order m, d, us. -/
def finalize (om od ou : Option Int) : Except DeError PgInterval :=
  match om with
  | none => .error (.missingField "m")
  | some mv =>
    match od with
    | none => .error (.missingField "d")
    | some dv =>
      match ou with
      | none => .error (.missingField "us")
      | some uv => .ok ⟨mv, dv, uv⟩

/-- Split a character stream into whitespace-separated tokens (space
characters only, as in the claims' inputs); `cur` holds the current token's
characters in reverse. -/
def wordsAux : List Char → List Char → List String
  | [], cur => if cur = [] then [] else [String.mk cur.reverse]
  | c :: rest, cur =>
    if c = ' ' then
      if cur = [] then wordsAux rest []
      else String.mk cur.reverse :: wordsAux rest []
    else wordsAux rest (c :: cur)

/-- The whitespace-separated tokens of an input string. -/
def tokensOf (s : String) : List String := wordsAux s.data []

/-- Decimal digit value of a character, if any. -/
def digitVal (c : Char) : Option Nat :=
  if '0' ≤ c ∧ c ≤ '9' then some (c.toNat - '0'.toNat) else none

/-- Read a decimal digit string as a natural number. -/
def natOfDigits : List Char → Nat → Option Nat
  | [], acc => some acc
  | c :: rest, acc =>
    match digitVal c with
    | none => none
    | some d => natOfDigits rest (acc * 10 + d)

/-- An integer literal: optional leading minus sign, then decimal digits. -/
def intOfToken (t : String) : Option Int :=
  match t.data with
  | [] => none
  | '-' :: rest =>
    if rest = [] then none else (natOfDigits rest 0).map (fun n => -(n : Int))
  | l => (natOfDigits l 0).map (fun n => (n : Int))

/-- Modelled from the spec: the unit-keyword synonym table of the text
grammar (spec section 4.1); each accepted designator maps to its canonical
plural class. -/
def unitClass : String → Option String
  | "years" => some "years"
  | "year" => some "years"
  | "mons" => some "mons"
  | "mon" => some "mons"
  | "days" => some "days"
  | "day" => some "days"
  | "hours" => some "hours"
  | "hour" => some "hours"
  | "minutes" => some "minutes"
  | "minute" => some "minutes"
  | "mins" => some "minutes"
  | "min" => some "minutes"
  | "seconds" => some "seconds"
  | "second" => some "seconds"
  | "secs" => some "seconds"
  | "sec" => some "seconds"
  | _ => none

/-- Accumulator state of the text parser: the three interval fields plus the
set of unit classes already consumed (for duplicate rejection). -/
structure ParseAcc where
  months : Int
  days : Int
  microseconds : Int
  seen : List String
deriving DecidableEq, Repr

/-- Modelled from the spec: apply one `<integer> <unit>` pair to the
accumulator — unknown or duplicate unit designators fail; years contribute
twelve months each, days accumulate directly, and hours / minutes / seconds
convert to microseconds at 3600000000 / 60000000 / 1000000 each. -/
def applyUnit (st : ParseAcc) (n : Int) (u : String) : Option ParseAcc :=
  match unitClass u with
  | none => none
  | some c =>
    if c ∈ st.seen then none
    else if c = "years" then
      some { st with months := st.months + n * 12, seen := c :: st.seen }
    else if c = "mons" then
      some { st with months := st.months + n, seen := c :: st.seen }
    else if c = "days" then
      some { st with days := st.days + n, seen := c :: st.seen }
    else if c = "hours" then
      some { st with
        microseconds := st.microseconds + n * 3600000000
        seen := c :: st.seen }
    else if c = "minutes" then
      some { st with
        microseconds := st.microseconds + n * 60000000
        seen := c :: st.seen }
    else if c = "seconds" then
      some { st with
        microseconds := st.microseconds + n * 1000000
        seen := c :: st.seen }
    else none

/-- Modelled from the spec: consume the token stream as `<integer> <unit>`
pairs; a trailing lone token or a malformed integer literal fails; the empty
stream yields the accumulator unchanged (so empty input parses to the zero
interval). -/
def parsePairs : List String → ParseAcc → Option ParseAcc
  | [], st => some st
  | [_], _ => none
  | num :: u :: rest, st =>
    match intOfToken num with
    | none => none
    | some n =>
      match applyUnit st n u with
      | none => none
      | some st2 => parsePairs rest st2

/-- Modelled from the spec: `Interval::new` delegates to the external
pg_interval crate's `from_postgres` text parser (src/src/lib.rs lines 54-58),
which is not part of this repository.  Modelled here from spec section 4.1 is
its whitespace-separated `<integer> <unit>` pair grammar with the synonym
table, duplicate/unknown-designator rejection and the accumulation rules; the
colon-delimited time alternative of the grammar is exercised by no claim and
is not modelled.  Parse failures are collapsed to `none`. -/
def interval_new (s : String) : Option PgInterval :=
  match parsePairs (tokensOf s) ⟨0, 0, 0, []⟩ with
  | none => none
  | some st => some ⟨st.months, st.days, st.microseconds⟩

theorem natToBeBytes_length (w : Nat) : ∀ n, (natToBeBytes w n).length = w := by
  induction w with
  | zero => intro n; rfl
  | succ w ih => intro n; simp [natToBeBytes, ih]

theorem beBytesToNat_append_single (l : List Nat) (b : Nat) :
    beBytesToNat (l ++ [b]) = beBytesToNat l * 256 + b := by
  simp [beBytesToNat, List.foldl_append]

theorem beBytesToNat_natToBeBytes (w : Nat) :
    ∀ n, beBytesToNat (natToBeBytes w n) = n % 256 ^ w := by
  induction w with
  | zero => intro n; simp [natToBeBytes, beBytesToNat, Nat.mod_one]
  | succ w ih =>
      intro n
      rw [natToBeBytes, beBytesToNat_append_single, ih, pow_succ, mul_comm (256 ^ w) 256,
        Nat.mod_mul]
      ring

theorem i32_from_to (x : Int) (h1 : -2147483648 ≤ x) (h2 : x < 2147483648) :
    i32_from_be_bytes (i32_to_be_bytes x) = x := by
  unfold i32_from_be_bytes i32_to_be_bytes
  rw [beBytesToNat_natToBeBytes]
  have hp : (256 : Nat) ^ 4 = 4294967296 := by norm_num
  rw [hp]
  split <;> omega

theorem i64_from_to (x : Int)
    (h1 : -9223372036854775808 ≤ x) (h2 : x < 9223372036854775808) :
    i64_from_be_bytes (i64_to_be_bytes x) = x := by
  unfold i64_from_be_bytes i64_to_be_bytes
  rw [beBytesToNat_natToBeBytes]
  have hp : (256 : Nat) ^ 8 = 18446744073709551616 := by norm_num
  rw [hp]
  split <;> omega

theorem interval_encode_length (i : PgInterval) :
    (interval_encode i).length = 16 := by
  simp [interval_encode, i64_to_be_bytes, i32_to_be_bytes, natToBeBytes_length]

theorem i64_to_be_bytes_length (x : Int) : (i64_to_be_bytes x).length = 8 := by
  simp [i64_to_be_bytes, natToBeBytes_length]

theorem i32_to_be_bytes_length (x : Int) : (i32_to_be_bytes x).length = 4 := by
  simp [i32_to_be_bytes, natToBeBytes_length]

theorem encode_slice_us (i : PgInterval) :
    slice (interval_encode i) 0 8 = i64_to_be_bytes i.microseconds := by
  simp only [slice, interval_encode, List.drop_zero, List.append_assoc]
  exact List.take_left' (i64_to_be_bytes_length i.microseconds)

theorem encode_slice_days (i : PgInterval) :
    slice (interval_encode i) 8 12 = i32_to_be_bytes i.days := by
  simp only [slice, interval_encode, List.append_assoc]
  rw [List.drop_left' (i64_to_be_bytes_length i.microseconds)]
  exact List.take_left' (i32_to_be_bytes_length i.days)

theorem encode_slice_months (i : PgInterval) :
    slice (interval_encode i) 12 16 = i32_to_be_bytes i.months := by
  simp only [slice, interval_encode]
  rw [List.drop_left'
    (show (i64_to_be_bytes i.microseconds ++ i32_to_be_bytes i.days).length = 12 by
      simp [i64_to_be_bytes_length, i32_to_be_bytes_length])]
  rw [show 16 - 12 = 4 from rfl, ← i32_to_be_bytes_length i.months, List.take_length]

/-- C1: decoding the 16 bytes written by the binary wire encoder gives back
the original interval field-for-field, for all fields in i32 / i32 / i64
range. -/
theorem spec_c1_binary_roundtrip (i : PgInterval)
    (hm1 : -2147483648 ≤ i.months) (hm2 : i.months < 2147483648)
    (hd1 : -2147483648 ≤ i.days) (hd2 : i.days < 2147483648)
    (hu1 : -9223372036854775808 ≤ i.microseconds)
    (hu2 : i.microseconds < 9223372036854775808) :
    interval_from_sql (interval_encode i) = SqlDecodeResult.ok i := by
  unfold interval_from_sql
  rw [if_pos (by rw [interval_encode_length])]
  rw [encode_slice_us, encode_slice_days, encode_slice_months,
    i32_from_to _ hm1 hm2, i32_from_to _ hd1 hd2, i64_from_to _ hu1 hu2]

theorem spec_c1_binary_roundtrip_witness :
    interval_from_sql (interval_encode ⟨-5, 44, -123456789⟩) =
      SqlDecodeResult.ok ⟨-5, 44, -123456789⟩ :=
  spec_c1_binary_roundtrip ⟨-5, 44, -123456789⟩ (by decide) (by decide)
    (by decide) (by decide) (by decide) (by decide)

/-- C2: the wire layout is microseconds (8 bytes) then days (4 bytes) then
months (4 bytes), all big-endian: the given 16 bytes decode to
months = 1, days = 2, microseconds = 3000000, and encoding that interval
writes exactly those bytes. -/
theorem spec_c2_wire_layout :
    interval_from_sql [0, 0, 0, 0, 0, 45, 198, 192, 0, 0, 0, 2, 0, 0, 0, 1] =
      SqlDecodeResult.ok ⟨1, 2, 3000000⟩ ∧
    interval_to_sql ⟨1, 2, 3000000⟩ [] =
      ([0, 0, 0, 0, 0, 45, 198, 192, 0, 0, 0, 2, 0, 0, 0, 1], IsNull.no) := by
  constructor
  · decide
  · decide

/-- C3: `to_sql` is total (always appends exactly 16 bytes and returns
`IsNull::No`), but `Interval::bytes` panics for every interval: its buffer
`vec![0u8, 16]` is the two-element vector `[0, 16]`, so the copy into range
0..8 is out of bounds. -/
theorem spec_c3_bytes_panics_to_sql_total :
    (∀ i : PgInterval, interval_bytes i = none) ∧
    ∀ (i : PgInterval) (w : List Nat),
      (interval_to_sql i w).1.length = w.length + 16 ∧
      (interval_to_sql i w).2 = IsNull.no := by
  constructor
  · intro i
    rfl
  · intro i w
    exact ⟨by simp [interval_to_sql, interval_encode_length], rfl⟩

/-- C4 counterexample: on the empty input the decoder panics (out-of-bounds
slice index), it does not return an error result to the caller. -/
theorem spec_c4_short_input_counterexample :
    interval_from_sql [] = SqlDecodeResult.panicked := by decide

/-- C4 (amended): for every input of fewer than 16 bytes the decoder fails by
panicking on the out-of-bounds slice index (never yielding an interval), and
for every input of at least 16 bytes it succeeds. -/
theorem spec_c4_short_input_panics (raw : List Nat) :
    (raw.length < 16 → interval_from_sql raw = SqlDecodeResult.panicked) ∧
    (16 ≤ raw.length → ∃ i, interval_from_sql raw = SqlDecodeResult.ok i) := by
  constructor
  · intro h
    unfold interval_from_sql
    rw [if_neg (by omega)]
  · intro h
    unfold interval_from_sql
    rw [if_pos h]
    exact ⟨_, rfl⟩

theorem spec_c4_short_input_panics_witness :
    interval_from_sql [7] = SqlDecodeResult.panicked ∧
    ∃ i, interval_from_sql [0, 0, 0, 0, 0, 0, 0, 0, 0, 0, 0, 0, 0, 0, 0, 0] =
      SqlDecodeResult.ok i :=
  ⟨(spec_c4_short_input_panics [7]).1 (by decide),
   (spec_c4_short_input_panics [0, 0, 0, 0, 0, 0, 0, 0, 0, 0, 0, 0, 0, 0, 0, 0]).2
     (by decide)⟩

theorem slice_take_16 (raw : List Nat) (a b : Nat) (hb : b ≤ 16) :
    slice (raw.take 16) a b = slice raw a b := by
  simp only [slice, List.drop_take, List.take_take]
  rw [Nat.min_eq_left (by omega)]

/-- C10: on inputs longer than 16 bytes the decoder succeeds and agrees with
decoding just the first 16 bytes; trailing bytes are ignored. -/
theorem spec_c10_trailing_bytes_ignored (raw : List Nat)
    (h : 16 < raw.length) :
    interval_from_sql raw = interval_from_sql (raw.take 16) ∧
    ∃ i, interval_from_sql raw = SqlDecodeResult.ok i := by
  have hlen : (raw.take 16).length = 16 := by
    rw [List.length_take]
    omega
  constructor
  · unfold interval_from_sql
    rw [if_pos (by omega), if_pos (by omega),
      slice_take_16 raw 12 16 (by omega), slice_take_16 raw 8 12 (by omega),
      slice_take_16 raw 0 8 (by omega)]
  · unfold interval_from_sql
    rw [if_pos (by omega)]
    exact ⟨_, rfl⟩

theorem spec_c10_trailing_bytes_ignored_witness :
    interval_from_sql [0, 0, 0, 0, 0, 0, 0, 0, 0, 0, 0, 0, 0, 0, 0, 0, 9] =
      interval_from_sql
        ([0, 0, 0, 0, 0, 0, 0, 0, 0, 0, 0, 0, 0, 0, 0, 0, 9].take 16) ∧
    ∃ i, interval_from_sql [0, 0, 0, 0, 0, 0, 0, 0, 0, 0, 0, 0, 0, 0, 0, 0, 9] =
      SqlDecodeResult.ok i :=
  spec_c10_trailing_bytes_ignored
    [0, 0, 0, 0, 0, 0, 0, 0, 0, 0, 0, 0, 0, 0, 0, 0, 9] (by decide)

theorem display_parts_eq_partsStr (i : PgInterval) :
    display_parts i = partsStr (unit_vals i) := by
  have hy : (" years " : String) = " " ++ ("years" ++ " ") := by decide
  have hmo : (" mons " : String) = " " ++ ("mons" ++ " ") := by decide
  have hd : (" days " : String) = " " ++ ("days" ++ " ") := by decide
  have hh : (" hours " : String) = " " ++ ("hours" ++ " ") := by decide
  have hmi : (" minutes " : String) = " " ++ ("minutes" ++ " ") := by decide
  have hs : (" seconds " : String) = " " ++ ("seconds" ++ " ") := by decide
  have hms : (" milliseconds " : String) = " " ++ ("milliseconds" ++ " ") := by decide
  have hus : (" microseconds " : String) = " " ++ ("microseconds" ++ " ") := by decide
  simp only [display_parts, partsStr, unit_vals, chunk, List.foldr,
    String.append_empty, String.append_assoc, hy, hmo, hd, hh, hmi, hs, hms, hus,
    gt_iff_lt]

theorem partsStr_cons (p : Int × String) (t : List (Int × String)) :
    partsStr (p :: t) = (if 0 < p.1 then chunk p ++ " " else "") ++ partsStr t :=
  rfl

theorem joinSp_cons_cons (x y : String) (t : List String) :
    joinSp (x :: y :: t) = x ++ " " ++ joinSp (y :: t) :=
  rfl

theorem partsStr_eq (l : List (Int × String)) :
    partsStr l =
      if l.filter (fun p => decide (0 < p.1)) = [] then ""
      else joinSp ((l.filter (fun p => decide (0 < p.1))).map chunk) ++ " " := by
  induction l with
  | nil => rfl
  | cons p t ih =>
      rw [partsStr_cons]
      by_cases hp : 0 < p.1
      · rw [if_pos hp, ih]
        have hf : (p :: t).filter (fun p => decide (0 < p.1)) =
            p :: t.filter (fun p => decide (0 < p.1)) := by
          simp [List.filter_cons, hp]
        rw [hf]
        by_cases he : t.filter (fun p => decide (0 < p.1)) = []
        · rw [if_pos he, if_neg (by simp), he]
          simp [joinSp]
        · rw [if_neg he, if_neg (by simp)]
          obtain ⟨c, cs, hcs⟩ : ∃ c cs, t.filter (fun p => decide (0 < p.1)) = c :: cs := by
            cases hx : t.filter (fun p => decide (0 < p.1)) with
            | nil => exact absurd hx he
            | cons c cs => exact ⟨c, cs, rfl⟩
          rw [hcs]
          simp only [List.map_cons, joinSp_cons_cons, String.append_assoc]
      · rw [if_neg hp, ih]
        have hf : (p :: t).filter (fun p => decide (0 < p.1)) =
            t.filter (fun p => decide (0 < p.1)) := by
          simp [List.filter_cons, hp]
        rw [hf, String.empty_append]

theorem stripLastChar_append_space (s : String) :
    stripLastChar (s ++ " ") = s := by
  show String.mk ((s ++ " ").data.dropLast) = s
  rw [String.data_append]
  show String.mk ((s.data ++ [' ']).dropLast) = s
  rw [List.dropLast_concat]

theorem append_space_ne_empty (s : String) : s ++ " " ≠ "" := by
  intro h
  have hd := String.ext_iff.mp h
  simp at hd

theorem interval_display_eq_spec (i : PgInterval) :
    interval_display i = spec_display i := by
  unfold interval_display spec_display
  rw [display_parts_eq_partsStr, partsStr_eq]
  by_cases h : (unit_vals i).filter (fun p => decide (0 < p.1)) = []
  · rw [if_pos h, if_pos rfl, h]
    rfl
  · rw [if_neg h, if_neg (append_space_ne_empty _), stripLastChar_append_space]

/-- C5: displaying the zero interval yields the empty string, because the
source writes its "0 seconds" fallback into the local buffer rather than the
formatter. -/
theorem spec_c5_zero_display_empty : interval_display ⟨0, 0, 0⟩ = "" := by
  decide

/-- C6 counterexample: for months = -12, days = 3 the computed years value is
-1, which is nonzero, yet the formatter omits it (the source tests `> 0`, not
nonzero): the code prints "3 days" where the claimed nonzero-emission rule
prints "-1 years 3 days". -/
theorem spec_c6_nonzero_counterexample :
    interval_display ⟨-12, 3, 0⟩ = "3 days" ∧
    spec_display_nonzero ⟨-12, 3, 0⟩ = "-1 years 3 days" := by
  constructor
  · decide
  · decide

/-- C6 (amended): the formatter emits exactly the units whose computed value
is strictly positive, in the fixed order years, mons, days, hours, minutes,
seconds, milliseconds, microseconds with those always-plural names, joined by
single spaces (units that are zero or negative are omitted); the all-positive
example formats exactly as specified. -/
theorem spec_c6_display_positive_units :
    (∀ i : PgInterval, interval_display i = spec_display i) ∧
    interval_display ⟨14, 3, 14706007008⟩ =
      "1 years 2 mons 3 days 4 hours 5 minutes 6 seconds 7 milliseconds 8 microseconds" := by
  refine ⟨interval_display_eq_spec, ?_⟩
  decide

theorem optCnt_le_one (o : Option Int) : optCnt o ≤ 1 := by
  unfold optCnt
  split <;> omega

theorem seenCnt_le_one (f : String) (om od ou : Option Int) :
    seenCnt f om od ou ≤ 1 := by
  unfold seenCnt
  split_ifs <;> first | exact optCnt_le_one _ | exact Nat.zero_le _

theorem seenCnt_m (om od ou : Option Int) : seenCnt "m" om od ou = optCnt om := by
  simp [seenCnt]

theorem seenCnt_d (om od ou : Option Int) : seenCnt "d" om od ou = optCnt od := by
  simp [seenCnt]

theorem seenCnt_us (om od ou : Option Int) : seenCnt "us" om od ou = optCnt ou := by
  simp [seenCnt]

theorem seenCnt_ne_m (f : String) (hf : f ≠ "m") (o o' od ou : Option Int) :
    seenCnt f o od ou = seenCnt f o' od ou := by
  simp [seenCnt, hf]

theorem seenCnt_ne_d (f : String) (hf : f ≠ "d") (om o o' ou : Option Int) :
    seenCnt f om o ou = seenCnt f om o' ou := by
  simp [seenCnt, hf]

theorem seenCnt_ne_us (f : String) (hf : f ≠ "us") (om od o o' : Option Int) :
    seenCnt f om od o = seenCnt f om od o' := by
  simp [seenCnt, hf]

theorem visitStep_dup (r : List (String × Int)) :
    ∀ (om od ou : Option Int) (f : String),
      (f = "m" ∨ f = "d" ∨ f = "us") →
      (∀ k ∈ r.map Prod.fst, k = "m" ∨ k = "d" ∨ k = "us") →
      2 ≤ (r.map Prod.fst).count f + seenCnt f om od ou →
      ∃ g, (g = "m" ∨ g = "d" ∨ g = "us") ∧
        2 ≤ (r.map Prod.fst).count g + seenCnt g om od ou ∧
        visitStep r om od ou = .error (.duplicateField g) := by
  induction r with
  | nil =>
      intro om od ou f hf _ hcnt
      exfalso
      have h1 := seenCnt_le_one f om od ou
      simp [List.count_nil] at hcnt
      omega
  | cons p t ih =>
      obtain ⟨k, v⟩ := p
      intro om od ou f hf hall hcnt
      have hkeys : ((k, v) :: t).map Prod.fst = k :: t.map Prod.fst := rfl
      by_cases hkm : k = "m"
      · subst hkm
        cases om with
        | some w =>
            refine ⟨"m", Or.inl rfl, ?_, ?_⟩
            · have h1 : seenCnt "m" (some w) od ou = 1 := by
                rw [seenCnt_m]; rfl
              have h2 : ((("m", v) :: t).map Prod.fst).count "m" =
                  (t.map Prod.fst).count "m" + 1 := by
                simp [List.count_cons]
              omega
            · rfl
        | none =>
            have hcnt' : 2 ≤ (t.map Prod.fst).count f + seenCnt f (some v) od ou := by
              by_cases hfm : f = "m"
              · subst hfm
                have h1 : ((("m", v) :: t).map Prod.fst).count "m" =
                    (t.map Prod.fst).count "m" + 1 := by
                  simp [List.count_cons]
                have h2 : seenCnt "m" (none : Option Int) od ou = 0 := by
                  rw [seenCnt_m]; rfl
                have h3 : seenCnt "m" (some v) od ou = 1 := by
                  rw [seenCnt_m]; rfl
                omega
              · have h1 : ((("m", v) :: t).map Prod.fst).count f =
                    (t.map Prod.fst).count f := by
                  simp [List.count_cons, Ne.symm hfm]
                have h2 := seenCnt_ne_m f hfm (some v) none od ou
                omega
            have hall' : ∀ k1 ∈ t.map Prod.fst, k1 = "m" ∨ k1 = "d" ∨ k1 = "us" := by
              intro k1 hk1
              exact hall k1 (by simp [hk1])
            obtain ⟨g, hg, hgcnt, hres⟩ := ih (some v) od ou f hf hall' hcnt'
            refine ⟨g, hg, ?_, hres⟩
            by_cases hgm : g = "m"
            · subst hgm
              have h1 : ((("m", v) :: t).map Prod.fst).count "m" =
                  (t.map Prod.fst).count "m" + 1 := by
                simp [List.count_cons]
              have h2 : seenCnt "m" (none : Option Int) od ou = 0 := by
                rw [seenCnt_m]; rfl
              have h3 : seenCnt "m" (some v) od ou = 1 := by
                rw [seenCnt_m]; rfl
              omega
            · have h1 : ((("m", v) :: t).map Prod.fst).count g =
                  (t.map Prod.fst).count g := by
                simp [List.count_cons, Ne.symm hgm]
              have h2 := seenCnt_ne_m g hgm (some v) none od ou
              omega
      · by_cases hkd : k = "d"
        · subst hkd
          cases od with
          | some w =>
              refine ⟨"d", Or.inr (Or.inl rfl), ?_, ?_⟩
              · have h1 : seenCnt "d" om (some w) ou = 1 := by
                  rw [seenCnt_d]; rfl
                have h2 : ((("d", v) :: t).map Prod.fst).count "d" =
                    (t.map Prod.fst).count "d" + 1 := by
                  simp [List.count_cons]
                omega
              · rfl
          | none =>
              have hcnt' : 2 ≤ (t.map Prod.fst).count f + seenCnt f om (some v) ou := by
                by_cases hfd : f = "d"
                · subst hfd
                  have h1 : ((("d", v) :: t).map Prod.fst).count "d" =
                      (t.map Prod.fst).count "d" + 1 := by
                    simp [List.count_cons]
                  have h2 : seenCnt "d" om (none : Option Int) ou = 0 := by
                    rw [seenCnt_d]; rfl
                  have h3 : seenCnt "d" om (some v) ou = 1 := by
                    rw [seenCnt_d]; rfl
                  omega
                · have h1 : ((("d", v) :: t).map Prod.fst).count f =
                      (t.map Prod.fst).count f := by
                    simp [List.count_cons, Ne.symm hfd]
                  have h2 := seenCnt_ne_d f hfd om (some v) none ou
                  omega
              have hall' : ∀ k1 ∈ t.map Prod.fst, k1 = "m" ∨ k1 = "d" ∨ k1 = "us" := by
                intro k1 hk1
                exact hall k1 (by simp [hk1])
              obtain ⟨g, hg, hgcnt, hres⟩ := ih om (some v) ou f hf hall' hcnt'
              have hstep : visitStep (("d", v) :: t) om none ou =
                  visitStep t om (some v) ou := rfl
              refine ⟨g, hg, ?_, by rw [hstep]; exact hres⟩
              by_cases hgd : g = "d"
              · subst hgd
                have h1 : ((("d", v) :: t).map Prod.fst).count "d" =
                    (t.map Prod.fst).count "d" + 1 := by
                  simp [List.count_cons]
                have h2 : seenCnt "d" om (none : Option Int) ou = 0 := by
                  rw [seenCnt_d]; rfl
                have h3 : seenCnt "d" om (some v) ou = 1 := by
                  rw [seenCnt_d]; rfl
                omega
              · have h1 : ((("d", v) :: t).map Prod.fst).count g =
                    (t.map Prod.fst).count g := by
                  simp [List.count_cons, Ne.symm hgd]
                have h2 := seenCnt_ne_d g hgd om (some v) none ou
                omega
        · by_cases hkus : k = "us"
          · subst hkus
            cases ou with
            | some w =>
                refine ⟨"us", Or.inr (Or.inr rfl), ?_, ?_⟩
                · have h1 : seenCnt "us" om od (some w) = 1 := by
                    rw [seenCnt_us]; rfl
                  have h2 : ((("us", v) :: t).map Prod.fst).count "us" =
                      (t.map Prod.fst).count "us" + 1 := by
                    simp [List.count_cons]
                  omega
                · rfl
            | none =>
                have hcnt' : 2 ≤ (t.map Prod.fst).count f + seenCnt f om od (some v) := by
                  by_cases hfus : f = "us"
                  · subst hfus
                    have h1 : ((("us", v) :: t).map Prod.fst).count "us" =
                        (t.map Prod.fst).count "us" + 1 := by
                      simp [List.count_cons]
                    have h2 : seenCnt "us" om od (none : Option Int) = 0 := by
                      rw [seenCnt_us]; rfl
                    have h3 : seenCnt "us" om od (some v) = 1 := by
                      rw [seenCnt_us]; rfl
                    omega
                  · have h1 : ((("us", v) :: t).map Prod.fst).count f =
                        (t.map Prod.fst).count f := by
                      simp [List.count_cons, Ne.symm hfus]
                    have h2 := seenCnt_ne_us f hfus om od (some v) none
                    omega
                have hall' : ∀ k1 ∈ t.map Prod.fst, k1 = "m" ∨ k1 = "d" ∨ k1 = "us" := by
                  intro k1 hk1
                  exact hall k1 (by simp [hk1])
                obtain ⟨g, hg, hgcnt, hres⟩ := ih om od (some v) f hf hall' hcnt'
                have hstep : visitStep (("us", v) :: t) om od none =
                    visitStep t om od (some v) := rfl
                refine ⟨g, hg, ?_, by rw [hstep]; exact hres⟩
                by_cases hgus : g = "us"
                · subst hgus
                  have h1 : ((("us", v) :: t).map Prod.fst).count "us" =
                      (t.map Prod.fst).count "us" + 1 := by
                    simp [List.count_cons]
                  have h2 : seenCnt "us" om od (none : Option Int) = 0 := by
                    rw [seenCnt_us]; rfl
                  have h3 : seenCnt "us" om od (some v) = 1 := by
                    rw [seenCnt_us]; rfl
                  omega
                · have h1 : ((("us", v) :: t).map Prod.fst).count g =
                      (t.map Prod.fst).count g := by
                    simp [List.count_cons, Ne.symm hgus]
                  have h2 := seenCnt_ne_us g hgus om od (some v) none
                  omega
          · exfalso
            have := hall k (by simp)
            tauto

theorem optCnt_zero (o : Option Int) (h : optCnt o = 0) : o = none := by
  cases o with
  | none => rfl
  | some w => exact absurd h (by simp [optCnt])

theorem visitStep_unknown (r : List (String × Int)) :
    ∀ (om od ou : Option Int),
      (r.map Prod.fst).Nodup →
      (∀ f ∈ r.map Prod.fst, seenCnt f om od ou = 0) →
      (∃ k ∈ r.map Prod.fst, ¬(k = "m" ∨ k = "d" ∨ k = "us")) →
      ∃ g, ¬(g = "m" ∨ g = "d" ∨ g = "us") ∧ g ∈ r.map Prod.fst ∧
        visitStep r om od ou = .error (.unknownField g) := by
  induction r with
  | nil =>
      intro om od ou _ _ hex
      simp at hex
  | cons p t ih =>
      obtain ⟨k, v⟩ := p
      intro om od ou hnd hseen hex
      have hnd' : (t.map Prod.fst).Nodup := (List.nodup_cons.mp hnd).2
      have hnotmem : k ∉ t.map Prod.fst := (List.nodup_cons.mp hnd).1
      by_cases hkm : k = "m"
      · subst hkm
        have hmn : om = none :=
          optCnt_zero om (by rw [← seenCnt_m om od ou]; exact hseen "m" (by simp))
        subst hmn
        have hseen' : ∀ f ∈ t.map Prod.fst, seenCnt f (some v) od ou = 0 := by
          intro f hf
          have hfm : f ≠ "m" := fun h => hnotmem (h ▸ hf)
          rw [seenCnt_ne_m f hfm (some v) none od ou]
          exact hseen f (by simp [hf])
        have hex' : ∃ k1 ∈ t.map Prod.fst, ¬(k1 = "m" ∨ k1 = "d" ∨ k1 = "us") := by
          obtain ⟨k1, hk1mem, hk1⟩ := hex
          have : k1 = "m" ∨ k1 ∈ t.map Prod.fst := by
            simpa using hk1mem
          rcases this with h | h
          · exact absurd (Or.inl h) hk1
          · exact ⟨k1, h, hk1⟩
        obtain ⟨g, hg, hgmem, hgres⟩ := ih (some v) od ou hnd' hseen' hex'
        exact ⟨g, hg, by simp [hgmem], hgres⟩
      · by_cases hkd : k = "d"
        · subst hkd
          have hdn : od = none :=
            optCnt_zero od (by rw [← seenCnt_d om od ou]; exact hseen "d" (by simp))
          subst hdn
          have hstep : visitStep (("d", v) :: t) om none ou =
              visitStep t om (some v) ou := rfl
          have hseen' : ∀ f ∈ t.map Prod.fst, seenCnt f om (some v) ou = 0 := by
            intro f hf
            have hfd : f ≠ "d" := fun h => hnotmem (h ▸ hf)
            rw [seenCnt_ne_d f hfd om (some v) none ou]
            exact hseen f (by simp [hf])
          have hex' : ∃ k1 ∈ t.map Prod.fst, ¬(k1 = "m" ∨ k1 = "d" ∨ k1 = "us") := by
            obtain ⟨k1, hk1mem, hk1⟩ := hex
            have : k1 = "d" ∨ k1 ∈ t.map Prod.fst := by
              simpa using hk1mem
            rcases this with h | h
            · exact absurd (Or.inr (Or.inl h)) hk1
            · exact ⟨k1, h, hk1⟩
          obtain ⟨g, hg, hgmem, hgres⟩ := ih om (some v) ou hnd' hseen' hex'
          exact ⟨g, hg, by simp [hgmem], by rw [hstep]; exact hgres⟩
        · by_cases hkus : k = "us"
          · subst hkus
            have hun : ou = none :=
              optCnt_zero ou (by rw [← seenCnt_us om od ou]; exact hseen "us" (by simp))
            subst hun
            have hstep : visitStep (("us", v) :: t) om od none =
                visitStep t om od (some v) := rfl
            have hseen' : ∀ f ∈ t.map Prod.fst, seenCnt f om od (some v) = 0 := by
              intro f hf
              have hfus : f ≠ "us" := fun h => hnotmem (h ▸ hf)
              rw [seenCnt_ne_us f hfus om od (some v) none]
              exact hseen f (by simp [hf])
            have hex' : ∃ k1 ∈ t.map Prod.fst, ¬(k1 = "m" ∨ k1 = "d" ∨ k1 = "us") := by
              obtain ⟨k1, hk1mem, hk1⟩ := hex
              have : k1 = "us" ∨ k1 ∈ t.map Prod.fst := by
                simpa using hk1mem
              rcases this with h | h
              · exact absurd (Or.inr (Or.inr h)) hk1
              · exact ⟨k1, h, hk1⟩
            obtain ⟨g, hg, hgmem, hgres⟩ := ih om od (some v) hnd' hseen' hex'
            exact ⟨g, hg, by simp [hgmem], by rw [hstep]; exact hgres⟩
          · refine ⟨k, by tauto, by simp, ?_⟩
            simp only [visitStep]
            rw [if_neg hkm, if_neg hkd, if_neg hkus]

theorem slotVal_nil (f : String) (o : Option Int) : slotVal f o [] = o := by
  cases o <;> rfl

theorem slotVal_some (f : String) (v : Int) (r : List (String × Int)) :
    slotVal f (some v) r = some v := rfl

theorem slotVal_cons_ne (f k : String) (hk : k ≠ f) (o : Option Int) (v : Int)
    (t : List (String × Int)) :
    slotVal f o ((k, v) :: t) = slotVal f o t := by
  cases o with
  | some w => rfl
  | none =>
      simp only [slotVal]
      rw [List.find?_cons_of_neg _ (by simpa using hk)]

theorem slotVal_cons_self (f : String) (v : Int) (t : List (String × Int)) :
    slotVal f none ((f, v) :: t) = some v := by
  simp only [slotVal]
  rw [List.find?_cons_of_pos _ (by simp)]
  rfl

theorem visitStep_clean (r : List (String × Int)) :
    ∀ (om od ou : Option Int),
      (∀ k ∈ r.map Prod.fst, k = "m" ∨ k = "d" ∨ k = "us") →
      (r.map Prod.fst).Nodup →
      (∀ f ∈ r.map Prod.fst, seenCnt f om od ou = 0) →
      visitStep r om od ou =
        finalize (slotVal "m" om r) (slotVal "d" od r) (slotVal "us" ou r) := by
  induction r with
  | nil =>
      intro om od ou _ _ _
      rw [slotVal_nil, slotVal_nil, slotVal_nil]
      rfl
  | cons p t ih =>
      obtain ⟨k, v⟩ := p
      intro om od ou hall hnd hseen
      have hnd' : (t.map Prod.fst).Nodup := (List.nodup_cons.mp hnd).2
      have hnotmem : k ∉ t.map Prod.fst := (List.nodup_cons.mp hnd).1
      have hall' : ∀ k1 ∈ t.map Prod.fst, k1 = "m" ∨ k1 = "d" ∨ k1 = "us" := by
        intro k1 hk1
        exact hall k1 (by simp [hk1])
      by_cases hkm : k = "m"
      · subst hkm
        have hmn : om = none :=
          optCnt_zero om (by rw [← seenCnt_m om od ou]; exact hseen "m" (by simp))
        subst hmn
        have hseen' : ∀ f ∈ t.map Prod.fst, seenCnt f (some v) od ou = 0 := by
          intro f hf
          have hfm : f ≠ "m" := fun h => hnotmem (h ▸ hf)
          rw [seenCnt_ne_m f hfm (some v) none od ou]
          exact hseen f (by simp [hf])
        have hstep : visitStep (("m", v) :: t) none od ou =
            visitStep t (some v) od ou := rfl
        rw [hstep, ih (some v) od ou hall' hnd' hseen',
          slotVal_cons_self "m" v t,
          slotVal_cons_ne "d" "m" (by decide) od v t,
          slotVal_cons_ne "us" "m" (by decide) ou v t,
          slotVal_some]
      · by_cases hkd : k = "d"
        · subst hkd
          have hdn : od = none :=
            optCnt_zero od (by rw [← seenCnt_d om od ou]; exact hseen "d" (by simp))
          subst hdn
          have hseen' : ∀ f ∈ t.map Prod.fst, seenCnt f om (some v) ou = 0 := by
            intro f hf
            have hfd : f ≠ "d" := fun h => hnotmem (h ▸ hf)
            rw [seenCnt_ne_d f hfd om (some v) none ou]
            exact hseen f (by simp [hf])
          have hstep : visitStep (("d", v) :: t) om none ou =
              visitStep t om (some v) ou := rfl
          rw [hstep, ih om (some v) ou hall' hnd' hseen',
            slotVal_cons_self "d" v t,
            slotVal_cons_ne "m" "d" (by decide) om v t,
            slotVal_cons_ne "us" "d" (by decide) ou v t,
            slotVal_some]
        · by_cases hkus : k = "us"
          · subst hkus
            have hun : ou = none :=
              optCnt_zero ou (by rw [← seenCnt_us om od ou]; exact hseen "us" (by simp))
            subst hun
            have hseen' : ∀ f ∈ t.map Prod.fst, seenCnt f om od (some v) = 0 := by
              intro f hf
              have hfus : f ≠ "us" := fun h => hnotmem (h ▸ hf)
              rw [seenCnt_ne_us f hfus om od (some v) none]
              exact hseen f (by simp [hf])
            have hstep : visitStep (("us", v) :: t) om od none =
                visitStep t om od (some v) := rfl
            rw [hstep, ih om od (some v) hall' hnd' hseen',
              slotVal_cons_self "us" v t,
              slotVal_cons_ne "m" "us" (by decide) om v t,
              slotVal_cons_ne "d" "us" (by decide) od v t,
              slotVal_some]
          · exfalso
            have := hall k (by simp)
            tauto

theorem seenCnt_none (f : String) : seenCnt f none none none = 0 := by
  unfold seenCnt
  split_ifs <;> rfl

theorem find?_field_absent (f : String) (r : List (String × Int))
    (h : f ∉ r.map Prod.fst) :
    r.find? (fun p => p.1 == f) = none := by
  rw [List.find?_eq_none]
  intro x hx hpx
  exact h (List.mem_map.mpr ⟨x, hx, by simpa using hpx⟩)

theorem find?_field_present (f : String) (r : List (String × Int))
    (h : f ∈ r.map Prod.fst) :
    ∃ q, r.find? (fun p => p.1 == f) = some q := by
  have hs : (r.find? (fun p => p.1 == f)).isSome := by
    rw [List.find?_isSome]
    obtain ⟨x, hx, hfx⟩ := List.mem_map.mp h
    exact ⟨x, hx, by simp [hfx]⟩
  exact Option.isSome_iff_exists.mp hs

theorem find?_field_of_mem (f : String) (y : Int) (r : List (String × Int))
    (hnd : (r.map Prod.fst).Nodup) (hmem : (f, y) ∈ r) :
    r.find? (fun p => p.1 == f) = some (f, y) := by
  obtain ⟨q, hq⟩ := find?_field_present f r (List.mem_map.mpr ⟨(f, y), hmem, rfl⟩)
  have hqmem : q ∈ r := List.mem_of_find?_eq_some hq
  have hqf : q.1 = f := by
    have := List.find?_some hq
    simpa using this
  have : q = (f, y) :=
    List.inj_on_of_nodup_map hnd hqmem hmem (by simpa using hqf)
  rw [hq, this]

/-- C7: structured round-trip.  Deserializing the serialized field list of any
interval reproduces it; the fields are emitted in the order m, d, us; the
example triple serializes to exactly the expected JSON object and
deserializes back to the triple. -/
theorem spec_c7_structured_roundtrip :
    (∀ i : PgInterval,
      interval_visit_map (serialize_interval i) = Except.ok i) ∧
    serialize_interval ⟨1, 2, 3⟩ = [("m", 1), ("d", 2), ("us", 3)] ∧
    jsonOfFields (serialize_interval ⟨1, 2, 3⟩) =
      "\x7b\"m\":1,\"d\":2,\"us\":3\x7d" ∧
    interval_visit_map [("m", 1), ("d", 2), ("us", 3)] =
      Except.ok ⟨1, 2, 3⟩ := by
  refine ⟨fun i => rfl, rfl, ?_, rfl⟩
  decide

/-- C8: structured-deserialization error handling.  With every key among
m / d / us but some key duplicated, `visit_map` fails with a duplicate-field
error naming a duplicated field; with distinct keys including one outside
m / d / us it fails with an unknown-field error naming such a field; with
distinct known keys but some mandatory field absent it fails with a
missing-field error naming an absent field; and with all three fields present
exactly once, in any order, it succeeds with the corresponding values. -/
theorem spec_c8_structured_field_errors :
    (∀ r : List (String × Int),
      (∀ k ∈ r.map Prod.fst, k = "m" ∨ k = "d" ∨ k = "us") →
      ¬ (r.map Prod.fst).Nodup →
      ∃ f, (f = "m" ∨ f = "d" ∨ f = "us") ∧ 2 ≤ (r.map Prod.fst).count f ∧
        interval_visit_map r = Except.error (DeError.duplicateField f)) ∧
    (∀ r : List (String × Int),
      (r.map Prod.fst).Nodup →
      (∃ k ∈ r.map Prod.fst, ¬(k = "m" ∨ k = "d" ∨ k = "us")) →
      ∃ f, ¬(f = "m" ∨ f = "d" ∨ f = "us") ∧ f ∈ r.map Prod.fst ∧
        interval_visit_map r = Except.error (DeError.unknownField f)) ∧
    (∀ r : List (String × Int),
      (∀ k ∈ r.map Prod.fst, k = "m" ∨ k = "d" ∨ k = "us") →
      (r.map Prod.fst).Nodup →
      ("m" ∉ r.map Prod.fst ∨ "d" ∉ r.map Prod.fst ∨ "us" ∉ r.map Prod.fst) →
      ∃ f, (f = "m" ∨ f = "d" ∨ f = "us") ∧ f ∉ r.map Prod.fst ∧
        interval_visit_map r = Except.error (DeError.missingField f)) ∧
    (∀ (r : List (String × Int)) (a b c : Int),
      (∀ k ∈ r.map Prod.fst, k = "m" ∨ k = "d" ∨ k = "us") →
      (r.map Prod.fst).Nodup →
      ("m", a) ∈ r → ("d", b) ∈ r → ("us", c) ∈ r →
      interval_visit_map r = Except.ok ⟨a, b, c⟩) := by
  refine ⟨?_, ?_, ?_, ?_⟩
  · -- duplicate field
    intro r hall hnd
    have hex : ∃ f, 2 ≤ (r.map Prod.fst).count f := by
      by_contra hno
      push_neg at hno
      exact hnd (List.nodup_iff_count_le_one.mpr (fun a => by
        have := hno a
        omega))
    obtain ⟨f, hf2⟩ := hex
    have hfmem : f ∈ r.map Prod.fst := by
      rw [← List.count_pos_iff]
      omega
    have hfall := hall f hfmem
    have hcnt : 2 ≤ (r.map Prod.fst).count f + seenCnt f none none none := by
      rw [seenCnt_none]
      omega
    obtain ⟨g, hg, hgcnt, hgres⟩ := visitStep_dup r none none none f hfall hall hcnt
    rw [seenCnt_none] at hgcnt
    exact ⟨g, hg, by omega, hgres⟩
  · -- unknown field
    intro r hnd hex
    obtain ⟨g, hg, hgmem, hgres⟩ :=
      visitStep_unknown r none none none hnd (fun f _ => seenCnt_none f) hex
    exact ⟨g, hg, hgmem, hgres⟩
  · -- missing field
    intro r hall hnd habs
    have hclean := visitStep_clean r none none none hall hnd
      (fun f _ => seenCnt_none f)
    by_cases hm : "m" ∈ r.map Prod.fst
    · obtain ⟨qm, hqm⟩ := find?_field_present "m" r hm
      by_cases hd : "d" ∈ r.map Prod.fst
      · have hus : "us" ∉ r.map Prod.fst := by tauto
        obtain ⟨qd, hqd⟩ := find?_field_present "d" r hd
        refine ⟨"us", Or.inr (Or.inr rfl), hus, ?_⟩
        rw [interval_visit_map, hclean]
        simp only [slotVal, hqm, hqd, find?_field_absent "us" r hus]
        rfl
      · refine ⟨"d", Or.inr (Or.inl rfl), hd, ?_⟩
        rw [interval_visit_map, hclean]
        simp only [slotVal, hqm, find?_field_absent "d" r hd]
        rfl
    · refine ⟨"m", Or.inl rfl, hm, ?_⟩
      rw [interval_visit_map, hclean]
      simp only [slotVal, find?_field_absent "m" r hm]
      rfl
  · -- success, order irrelevant
    intro r a b c hall hnd hma hdb husc
    have hclean := visitStep_clean r none none none hall hnd
      (fun f _ => seenCnt_none f)
    rw [interval_visit_map, hclean]
    simp only [slotVal, find?_field_of_mem "m" a r hnd hma,
      find?_field_of_mem "d" b r hnd hdb, find?_field_of_mem "us" c r hnd husc]
    rfl

theorem spec_c8_structured_field_errors_witness :
    interval_visit_map [("d", 2), ("us", 3), ("m", 1)] =
      Except.ok ⟨1, 2, 3⟩ :=
  spec_c8_structured_field_errors.2.2.2 [("d", 2), ("us", 3), ("m", 1)] 1 2 3
    (by decide) (by decide) (by decide) (by decide) (by decide)

/-- C9: parsing "1 mons 2 days 3 seconds" succeeds with months = 1, days = 2,
microseconds = 3000000. -/
theorem spec_c9_parse_example :
    interval_new "1 mons 2 days 3 seconds" = some ⟨1, 2, 3000000⟩ := by
  decide

end PgIntervalBinding
